import Mathlib

/-!
Shallow embedding of `apps/bench/storage_bench.cc` (caladan storage benchmark)
and proofs about its workload generator, worker replay loop, experiment
aggregation and statistics reducer.

Times (`double` microseconds) are embedded as `ℚ`; `size_t` values as `ℕ`
reduced modulo `2 ^ 64` where the 64-bit width matters.
-/

namespace StorageBench

/-- 64-bit wrap-around modulus for `size_t` values. -/
def sizeTMod : ℕ := 2 ^ 64

/-- `struct work_unit` (storage_bench.cc lines 33-38):
`{double start_us; size_t lba; bool is_set; double duration_us;}`. -/
structure WorkUnit where
  start_us : ℚ
  lba : ℕ
  is_set : Bool
  duration_us : ℚ
deriving DecidableEq, Repr

/-- `constexpr uint64_t kMaxCatchUpUS = 5` (line 31): the maximum lateness
tolerated before an item is dropped, compared against a `double` difference,
hence embedded at `ℚ`. -/
def kMaxCatchUpUS : ℚ := 5

/-- `GenerateWork` (lines 40-50).  The arrival sampler `a` and the
service/address sampler `s` are embedded as streams of successive draws,
indexed by how many calls have been made so far (`a()` is called once per
loop iteration, `s()` twice: first for the `is_set` decision, then for the
address).  `s` returns `size_t`, so each draw is reduced mod `2 ^ 64`.
The C++ `while (cur_us < last_us)` loop is given explicit fuel; every
theorem below quantifies over all fuel values, so it covers every run in
which the C++ loop terminates.  `s() & ~0x7` is the 64-bit mask clearing
the low 3 bits, i.e. `&&& (sizeTMod - 8)`. -/
def GenerateWork (pct_set : ℕ) (a : ℕ → ℚ) (s : ℕ → ℕ) :
    ℕ → ℕ → ℕ → ℚ → ℚ → List WorkUnit
  | 0, _, _, _, _ => []
  | fuel + 1, ai, si, cur_us, last_us =>
    if cur_us < last_us then
      let cur' := cur_us + a ai
      { start_us := cur'
        lba := (s (si + 1) % sizeTMod) &&& (sizeTMod - 8)
        is_set := decide ((s si % sizeTMod) % 100 < pct_set)
        duration_us := 0 } ::
        GenerateWork pct_set a s fuel (ai + 1) (si + 2) cur' last_us
    else []

section GenerateWorkLemmas

/-- Every element of a generated schedule has `start_us` at least the running
clock `cur_us` at the start of generation, provided all arrival draws are
non-negative. -/
theorem GenerateWork_start_le (pct_set : ℕ) (a : ℕ → ℚ) (s : ℕ → ℕ)
    (ha : ∀ i, 0 ≤ a i) :
    ∀ (fuel ai si : ℕ) (cur last : ℚ),
      ∀ u ∈ GenerateWork pct_set a s fuel ai si cur last, cur ≤ u.start_us := by
  intro fuel
  induction fuel with
  | zero => intro ai si cur last u hu; simp [GenerateWork] at hu
  | succ n ih =>
    intro ai si cur last u hu
    rw [GenerateWork] at hu
    by_cases h : cur < last
    · simp only [if_pos h, List.mem_cons] at hu
      rcases hu with rfl | hu
      · simpa using ha ai
      · exact le_trans (by simpa using ha ai) (ih (ai + 1) (si + 2) (cur + a ai) last u hu)
    · simp [if_neg h] at hu

/-- Every element of a generated schedule was pushed while its predecessor
clock was below the horizon: all items except possibly the last have
`start_us < last_us`. -/
theorem GenerateWork_dropLast_lt (pct_set : ℕ) (a : ℕ → ℚ) (s : ℕ → ℕ) :
    ∀ (fuel ai si : ℕ) (cur last : ℚ),
      ∀ u ∈ (GenerateWork pct_set a s fuel ai si cur last).dropLast,
        u.start_us < last := by
  intro fuel
  induction fuel with
  | zero => intro ai si cur last u hu; simp [GenerateWork] at hu
  | succ n ih =>
    intro ai si cur last u hu
    rw [GenerateWork] at hu
    by_cases h : cur < last
    · simp only [if_pos h] at hu
      rcases hrest : GenerateWork pct_set a s n (ai + 1) (si + 2) (cur + a ai) last with
        _ | ⟨v, rest⟩
      · rw [hrest] at hu; simp at hu
      · rw [hrest, List.dropLast_cons₂] at hu
        rcases List.mem_cons.mp hu with rfl | hu'
        · -- the head is followed by at least one more item, so the recursive
          -- call took the `cur + a ai < last` branch
          have : cur + a ai < last := by
            by_contra hge
            cases n with
            | zero => rw [GenerateWork] at hrest; simp at hrest
            | succ m => rw [GenerateWork, if_neg hge] at hrest; simp at hrest
          simpa using this
        · rw [← hrest] at hu'
          exact ih (ai + 1) (si + 2) (cur + a ai) last u hu'
    · simp [if_neg h] at hu

/-- Masking with `~0x7` at 64 bits clears the low three bits: the result is
divisible by 8. -/
theorem land_mask_mod_eight (x : ℕ) : (x &&& (sizeTMod - 8)) % 8 = 0 := by
  have key : ∀ y : ℕ, y % 8 = y &&& 7 := by
    intro y
    have h := Nat.and_pow_two_sub_one_eq_mod y 3
    norm_num at h
    exact h.symm
  rw [key, Nat.and_assoc]
  have hm : (sizeTMod - 8) &&& 7 = 0 := by
    rw [← key]
    norm_num [sizeTMod]
  rw [hm, Nat.and_zero]

/-- The schedule offsets are non-decreasing whenever all arrival draws are
non-negative. -/
theorem GenerateWork_chain_le (pct_set : ℕ) (a : ℕ → ℚ) (s : ℕ → ℕ)
    (ha : ∀ i, 0 ≤ a i) :
    ∀ (fuel ai si : ℕ) (cur last : ℚ),
      List.Chain' (fun u v : WorkUnit => u.start_us ≤ v.start_us)
        (GenerateWork pct_set a s fuel ai si cur last) := by
  intro fuel
  induction fuel with
  | zero => intro ai si cur last; rw [GenerateWork]; exact List.chain'_nil
  | succ n ih =>
    intro ai si cur last
    rw [GenerateWork]
    by_cases h : cur < last
    · rw [if_pos h]
      refine List.chain'_cons'.mpr ⟨?_, ih (ai + 1) (si + 2) (cur + a ai) last⟩
      intro y hy
      exact GenerateWork_start_le pct_set a s ha n (ai + 1) (si + 2) (cur + a ai) last y
        (List.mem_of_mem_head? hy)
    · rw [if_neg h]; exact List.chain'_nil

/-- Every generated work unit's block address has its low three bits clear. -/
theorem GenerateWork_lba_aligned (pct_set : ℕ) (a : ℕ → ℚ) (s : ℕ → ℕ) :
    ∀ (fuel ai si : ℕ) (cur last : ℚ),
      ∀ u ∈ GenerateWork pct_set a s fuel ai si cur last, u.lba % 8 = 0 := by
  intro fuel
  induction fuel with
  | zero => intro ai si cur last u hu; simp [GenerateWork] at hu
  | succ n ih =>
    intro ai si cur last u hu
    rw [GenerateWork] at hu
    by_cases h : cur < last
    · simp only [if_pos h, List.mem_cons] at hu
      rcases hu with rfl | hu
      · exact land_mask_mod_eight _
      · exact ih (ai + 1) (si + 2) (cur + a ai) last u hu
    · simp [if_neg h] at hu

end GenerateWorkLemmas

section GenerateWorkConcrete

/-- A deterministic arrival sampler always drawing 150 μs. -/
def cexArrival150 : ℕ → ℚ := fun _ => 150

/-- A deterministic arrival sampler always drawing 60 μs. -/
def cexArrival60 : ℕ → ℚ := fun _ => 60

/-- A deterministic service/address sampler always drawing 0. -/
def cexService0 : ℕ → ℕ := fun _ => 0

end GenerateWorkConcrete

/-- C2 counterexample: with a horizon of 100 μs and an arrival sampler always
drawing 150 μs, `GenerateWork` produces a schedule whose last (and only) item
is scheduled at offset 150 μs, beyond the horizon: the generated offset is
appended after the loop clock has already crossed the horizon. -/
theorem GenerateWork_last_exceeds_horizon_cex :
    ¬ (∀ u ∈ GenerateWork 0 cexArrival150 cexService0 5 0 0 0 100,
        u.start_us ≤ 100) := by
  have h : GenerateWork 0 cexArrival150 cexService0 5 0 0 0 100 =
      [WorkUnit.mk 150 0 false 0] := by
    norm_num [GenerateWork, cexArrival150, cexService0, sizeTMod]
  rw [h]
  intro hall
  have h150 := hall (WorkUnit.mk 150 0 false 0) (by simp)
  norm_num at h150

/-- C2 (amended): every item of a generated schedule other than the last one
has a scheduled offset strictly below the supplied horizon (the last item may
overshoot it, since the generator appends the first offset at or beyond the
horizon before stopping). -/
theorem GenerateWork_all_but_last_below_horizon (pct_set : ℕ) (a : ℕ → ℚ)
    (s : ℕ → ℕ) (fuel ai si : ℕ) (cur last : ℚ) :
    ∀ u ∈ (GenerateWork pct_set a s fuel ai si cur last).dropLast,
      u.start_us < last :=
  GenerateWork_dropLast_lt pct_set a s fuel ai si cur last

/-- C2 witness: with arrival draws of 60 μs and horizon 100 μs the schedule
is [60, 120]; the non-last item at 60 μs is indeed below the horizon. -/
theorem GenerateWork_all_but_last_below_horizon_witness :
    (WorkUnit.mk 60 0 false 0) ∈
        (GenerateWork 0 cexArrival60 cexService0 5 0 0 0 100).dropLast ∧
      (WorkUnit.mk 60 0 false 0).start_us < 100 := by
  have h : GenerateWork 0 cexArrival60 cexService0 5 0 0 0 100 =
      [WorkUnit.mk 60 0 false 0, WorkUnit.mk 120 0 false 0] := by
    norm_num [GenerateWork, cexArrival60, cexService0, sizeTMod]
  refine ⟨?_, GenerateWork_all_but_last_below_horizon 0 cexArrival60 cexService0
    5 0 0 0 100 (WorkUnit.mk 60 0 false 0) ?_⟩ <;>
    rw [h] <;> simp [List.dropLast]

/-- C6: under the precondition that every arrival draw is non-negative, the
scheduled offsets of a generated schedule are non-decreasing in generation
order. -/
theorem GenerateWork_offsets_monotone (pct_set : ℕ) (a : ℕ → ℚ) (s : ℕ → ℕ)
    (fuel ai si : ℕ) (cur last : ℚ) (ha : ∀ i, 0 ≤ a i) :
    List.Chain' (fun u v : WorkUnit => u.start_us ≤ v.start_us)
      (GenerateWork pct_set a s fuel ai si cur last) :=
  GenerateWork_chain_le pct_set a s ha fuel ai si cur last

/-- C6 witness: the concrete schedule [60, 120] generated from the constant
60 μs sampler is non-decreasing. -/
theorem GenerateWork_offsets_monotone_witness :
    (∀ i : ℕ, 0 ≤ cexArrival60 i) ∧
      List.Chain' (fun u v : WorkUnit => u.start_us ≤ v.start_us)
        (GenerateWork 0 cexArrival60 cexService0 5 0 0 0 100) :=
  ⟨fun _ => by norm_num [cexArrival60],
    GenerateWork_offsets_monotone 0 cexArrival60 cexService0 5 0 0 0 100
      (fun _ => by norm_num [cexArrival60])⟩

/-- C7: every work unit produced by `GenerateWork` has a block address that is
a multiple of the 8-byte alignment unit: its low 3 bits are zero. -/
theorem GenerateWork_lba_multiple_of_eight (pct_set : ℕ) (a : ℕ → ℚ)
    (s : ℕ → ℕ) (fuel ai si : ℕ) (cur last : ℚ) :
    ∀ u ∈ GenerateWork pct_set a s fuel ai si cur last, u.lba % 8 = 0 :=
  GenerateWork_lba_aligned pct_set a s fuel ai si cur last

/-- C7 witness: the single item generated by the 150 μs sampler has an
aligned block address. -/
theorem GenerateWork_lba_multiple_of_eight_witness :
    (WorkUnit.mk 150 0 false 0) ∈
        GenerateWork 0 cexArrival150 cexService0 5 0 0 0 100 ∧
      (WorkUnit.mk 150 0 false 0).lba % 8 = 0 := by
  have h : GenerateWork 0 cexArrival150 cexService0 5 0 0 0 100 =
      [WorkUnit.mk 150 0 false 0] := by
    norm_num [GenerateWork, cexArrival150, cexService0, sizeTMod]
  refine ⟨?_, GenerateWork_lba_multiple_of_eight 0 cexArrival150 cexService0
    5 0 0 0 100 (WorkUnit.mk 150 0 false 0) ?_⟩ <;> rw [h] <;> simp

/-! ### Worker Stream replay loop (`ClientWorker`, lines 52-109)

The monotonic clock and the storage backend are external to the program, so
they are embedded as oracles indexed by the loop counter `i`:

* `e2 i` — the elapsed time (μs since `expstart`) re-measured at line 76,
  after the optional `rt::Sleep`;
* `ret i` — the status returned by `storage_write`/`storage_read` for item
  `i` (line 91/93);
* `lat i` — the measured completion latency `ts - timings[i]` for item `i`
  (line 100).

The loop body (lines 70-103) either drops item `i` (when the re-measured
elapsed time is more than `kMaxCatchUpUS` past its scheduled offset,
lines 77-81), or issues the operation and stores the latency only when the
status is 0 (line 99-100). -/

/-- One iteration of the replay loop for item `i`, acting on the work unit. -/
def ClientWorkerStep (e2 : ℕ → ℚ) (ret : ℕ → ℤ) (lat : ℕ → ℚ) (i : ℕ)
    (u : WorkUnit) : WorkUnit :=
  if e2 i - u.start_us > kMaxCatchUpUS then u
  else if ret i = 0 then { u with duration_us := lat i } else u

/-- The replay loop over the schedule, starting at loop counter `i`. -/
def ClientWorkerLoop (e2 : ℕ → ℚ) (ret : ℕ → ℤ) (lat : ℕ → ℚ) :
    ℕ → List WorkUnit → List WorkUnit
  | _, [] => []
  | i, u :: rest =>
    ClientWorkerStep e2 ret lat i u :: ClientWorkerLoop e2 ret lat (i + 1) rest

/-- The replayed schedule returned by `ClientWorker` (line 108 returns `w`
after the loop has mutated it in place). -/
def ClientWorker (e2 : ℕ → ℚ) (ret : ℕ → ℤ) (lat : ℕ → ℚ)
    (w : List WorkUnit) : List WorkUnit :=
  ClientWorkerLoop e2 ret lat 0 w

/-- The sequence of operations the worker issues against the storage backend
(one `storage_write`/`storage_read` per non-dropped item), tagged with the
loop counter, starting at counter `i`.  A dropped item contributes nothing
(the `continue` at line 80 skips the `rt::Spawn`). -/
def backendOps (e2 : ℕ → ℚ) : ℕ → List WorkUnit → List (ℕ × Bool × ℕ)
  | _, [] => []
  | i, u :: rest =>
    if e2 i - u.start_us > kMaxCatchUpUS then backendOps e2 (i + 1) rest
    else (i, u.is_set, u.lba) :: backendOps e2 (i + 1) rest

section ClientWorkerLemmas

/-- Each item of the replayed schedule is the step applied to the
corresponding input item. -/
theorem ClientWorkerLoop_get? (e2 : ℕ → ℚ) (ret : ℕ → ℤ) (lat : ℕ → ℚ) :
    ∀ (w : List WorkUnit) (i0 i : ℕ) (u : WorkUnit), w.get? i = some u →
      (ClientWorkerLoop e2 ret lat i0 w).get? i =
        some (ClientWorkerStep e2 ret lat (i0 + i) u) := by
  intro w
  induction w with
  | nil => intro i0 i u hu; simp at hu
  | cons v rest ih =>
    intro i0 i u hu
    cases i with
    | zero => simp_all [ClientWorkerLoop]
    | succ j =>
      simp only [List.get?_cons_succ] at hu
      have := ih (i0 + 1) j u hu
      simpa [ClientWorkerLoop, Nat.add_assoc, Nat.add_comm 1 j] using this

/-- The replay loop preserves the length of the schedule. -/
theorem ClientWorkerLoop_length (e2 : ℕ → ℚ) (ret : ℕ → ℤ) (lat : ℕ → ℚ) :
    ∀ (i0 : ℕ) (w : List WorkUnit),
      (ClientWorkerLoop e2 ret lat i0 w).length = w.length := by
  intro i0 w
  induction w generalizing i0 with
  | nil => rfl
  | cons v rest ih => simp [ClientWorkerLoop, ih]

/-- Every loop counter tagged on a backend operation corresponds to an item
whose lateness check passed. -/
theorem backendOps_mem (e2 : ℕ → ℚ) :
    ∀ (w : List WorkUnit) (i0 : ℕ) (op : ℕ × Bool × ℕ),
      op ∈ backendOps e2 i0 w →
      ∃ i u, w.get? i = some u ∧ op.1 = i0 + i ∧
        ¬ (e2 (i0 + i) - u.start_us > kMaxCatchUpUS) := by
  intro w
  induction w with
  | nil => intro i0 op hop; simp [backendOps] at hop
  | cons v rest ih =>
    intro i0 op hop
    rw [backendOps] at hop
    by_cases h : e2 i0 - v.start_us > kMaxCatchUpUS
    · rw [if_pos h] at hop
      obtain ⟨i, u, hu, hop1, hpass⟩ := ih (i0 + 1) op hop
      exact ⟨i + 1, u, by simpa using hu, by omega,
        by rwa [show i0 + (i + 1) = i0 + 1 + i by omega]⟩
    · rw [if_neg h] at hop
      rcases List.mem_cons.mp hop with rfl | hop'
      · exact ⟨0, v, rfl, by omega, by simpa using h⟩
      · obtain ⟨i, u, hu, hop1, hpass⟩ := ih (i0 + 1) op hop'
        exact ⟨i + 1, u, by simpa using hu, by omega,
          by rwa [show i0 + (i + 1) = i0 + 1 + i by omega]⟩

end ClientWorkerLemmas

/-- C3: in the replay loop, an item whose re-measured elapsed time is more
than `kMaxCatchUpUS` (5 μs) past its scheduled offset is dropped: it is left
entirely unchanged (in particular its `duration_us` stays 0) and no backend
operation tagged with its index is ever issued, while the rest of the stream
is unaffected (the output has the same length).  An item that is issued but
whose backend status `ret i` is non-zero is likewise left with
`duration_us = 0`. -/
theorem ClientWorker_drop_and_failure (e2 : ℕ → ℚ) (ret : ℕ → ℤ)
    (lat : ℕ → ℚ) (w : List WorkUnit) (i : ℕ) (u : WorkUnit)
    (hu : w.get? i = some u) (h0 : u.duration_us = 0) :
    ((e2 i - u.start_us > kMaxCatchUpUS →
        (ClientWorker e2 ret lat w).get? i = some u ∧
        ∀ op ∈ backendOps e2 0 w, op.1 ≠ i) ∧
      (¬ (e2 i - u.start_us > kMaxCatchUpUS) → ret i ≠ 0 →
        ((ClientWorker e2 ret lat w).get? i).map WorkUnit.duration_us =
          some 0)) ∧
      (ClientWorker e2 ret lat w).length = w.length := by
  have hget := ClientWorkerLoop_get? e2 ret lat w 0 i u hu
  rw [Nat.zero_add] at hget
  refine ⟨⟨?_, ?_⟩, ClientWorkerLoop_length e2 ret lat 0 w⟩
  · intro hdrop
    refine ⟨?_, ?_⟩
    · rw [ClientWorker, hget, ClientWorkerStep, if_pos hdrop]
    · intro op hop hopi
      obtain ⟨j, v, hv, hj, hpass⟩ := backendOps_mem e2 w 0 op hop
      rw [Nat.zero_add] at hj hpass
      rw [hopi] at hj
      subst hj
      rw [hv] at hu
      exact hpass (by injection hu with h; rw [h]; exact hdrop)
  · intro hpass hret
    rw [ClientWorker, hget, ClientWorkerStep, if_neg hpass, if_neg hret]
    simpa using h0

/-- C3 witness: a two-item schedule at offsets 10 and 20 μs with elapsed
times 30 μs (late by 20 > 5: dropped) for item 0; item 0 keeps latency 0 and
no backend operation carries index 0. -/
theorem ClientWorker_drop_and_failure_witness :
    ([WorkUnit.mk 10 0 false 0, WorkUnit.mk 20 8 true 0].get? 0 =
        some (WorkUnit.mk 10 0 false 0) ∧
      (WorkUnit.mk 10 0 false 0).duration_us = 0) ∧
      (((fun _ => (30 : ℚ)) 0 - (WorkUnit.mk 10 0 false 0).start_us >
          kMaxCatchUpUS →
        (ClientWorker (fun _ => (30 : ℚ)) (fun _ => (0 : ℤ))
            (fun _ => (7 : ℚ))
            [WorkUnit.mk 10 0 false 0, WorkUnit.mk 20 8 true 0]).get? 0 =
          some (WorkUnit.mk 10 0 false 0) ∧
        ∀ op ∈ backendOps (fun _ => (30 : ℚ)) 0
            [WorkUnit.mk 10 0 false 0, WorkUnit.mk 20 8 true 0],
          op.1 ≠ 0) ∧
      (¬ ((fun _ => (30 : ℚ)) 0 - (WorkUnit.mk 10 0 false 0).start_us >
          kMaxCatchUpUS) → (fun _ => (0 : ℤ)) 0 ≠ 0 →
        ((ClientWorker (fun _ => (30 : ℚ)) (fun _ => (0 : ℤ))
            (fun _ => (7 : ℚ))
            [WorkUnit.mk 10 0 false 0, WorkUnit.mk 20 8 true 0]).get? 0).map
          WorkUnit.duration_us = some 0)) ∧
      (ClientWorker (fun _ => (30 : ℚ)) (fun _ => (0 : ℤ))
          (fun _ => (7 : ℚ))
          [WorkUnit.mk 10 0 false 0, WorkUnit.mk 20 8 true 0]).length =
        [WorkUnit.mk 10 0 false 0, WorkUnit.mk 20 8 true 0].length :=
  ⟨⟨rfl, rfl⟩,
    ClientWorker_drop_and_failure (fun _ => (30 : ℚ)) (fun _ => (0 : ℤ))
      (fun _ => (7 : ℚ)) [WorkUnit.mk 10 0 false 0, WorkUnit.mk 20 8 true 0]
      0 (WorkUnit.mk 10 0 false 0) rfl rfl⟩

/-! ### A size/capacity model of `std::vector` for the timings buffer

`ClientWorker` declares `std::vector<time_point<steady_clock>> timings` and
calls `timings.reserve(w.size())` (lines 55-56).  `reserve` changes only the
capacity of a vector, never its size; `operator[]` is in bounds only for
indices below the current size. -/

/-- A vector as its element list (the sized part) plus its reserved
capacity. -/
structure CVec (α : Type) where
  data : List α
  cap : ℕ
deriving Repr

/-- `std::vector::reserve`: grows the capacity, leaves the elements (and
hence the size) unchanged. -/
def CVec.reserve (v : CVec α) (n : ℕ) : CVec α := { v with cap := max v.cap n }

/-- `std::vector::size`. -/
def CVec.size (v : CVec α) : ℕ := v.data.length

/-- Whether `v[i]` subscripts an element of the vector: `operator[]` is in
bounds exactly for indices below the current size. -/
def CVec.subscriptInBounds (v : CVec α) (i : ℕ) : Bool := i < v.size

/-- The `timings` vector as it stands when the replay loop first executes
`timings[i] = steady_clock::now()` (line 84): default-constructed empty,
then `reserve`d to the schedule length. -/
def timingsVec (w : List WorkUnit) : CVec ℚ :=
  CVec.reserve { data := [], cap := 0 } w.length

/-- C9 is false of the code: `reserve` never grows the size, so the
`timings` vector still has size 0 when the loop writes `timings[i]`, and no
index whatsoever — in particular not any schedule index that passes the
lateness check — subscripts an element of it.  Every such write is
out of bounds. -/
theorem timings_subscript_never_in_bounds (w : List WorkUnit) (i : ℕ) :
    (timingsVec w).size = 0 ∧
      (timingsVec w).cap = w.length ∧
      (timingsVec w).subscriptInBounds i = false := by
  refine ⟨rfl, ?_, rfl⟩
  simp [timingsVec, CVec.reserve]

/-! ### Statistics reducer (`PrintStatResults`, lines 161-184)

`std::sort` with the comparator `s1.duration_us < s2.duration_us` orders the
samples so that every adjacent pair satisfies
`¬ (s2.duration_us < s1.duration_us)`, i.e. non-decreasing `duration_us`;
`List.mergeSort` with the non-strict key comparison realizes such an order.
The percentile reads are `w[(size_t)(count * p)]` where `count` is
`w.size()` as a `double` and the `double → size_t` cast truncates — for the
non-negative values involved this is `⌊count * p⌋`.  Each subscript is
embedded as a partial (`Option`-valued) read so that an out-of-range access
(undefined behavior in C++) is visible as `none`. -/

/-- The `std::sort` comparator of lines 163-165, as a non-strict key order. -/
def durLe (u v : WorkUnit) : Bool := u.duration_us ≤ v.duration_us

/-- The latency-sorted sample sequence. -/
def sortByLatency (w : List WorkUnit) : List WorkUnit := w.mergeSort durLe

/-- The percentile rank `(size_t)(count * p)` = `⌊count * p⌋`. -/
def rankOf (count : ℕ) (p : ℚ) : ℕ := (⌊(count : ℚ) * p⌋).toNat

/-- The (partial) read `w[r].duration_us` of the sorted sequence. -/
def rankValue (ws : List WorkUnit) (r : ℕ) : Option ℚ :=
  (ws.get? r).map WorkUnit.duration_us

/-- The fields computed by `PrintStatResults` before printing. -/
structure SummaryStats where
  sample_count : ℕ
  mean : ℚ
  min? : Option ℚ
  p90? : Option ℚ
  p99? : Option ℚ
  p999? : Option ℚ
  p9999? : Option ℚ
  max? : Option ℚ
deriving DecidableEq, Repr

/-- `PrintStatResults` (lines 161-184): sort by ascending latency, mean via
`std::accumulate` over the sorted vector divided by the count, and rank
reads at `⌊count * p⌋`, `0` (min) and `size() - 1` (max).  In C++ the mean
on an empty vector is `0.0 / 0` (NaN) where `ℚ` yields `0`, and
`w.size() - 1` wraps to `2^64 - 1` on an empty vector where `ℕ` yields `0`:
in both models the empty-vector min/max/percentile reads are out of range
(`none`), and vector sizes representable in C++ are below `2^64`, where the
two indices agree. -/
def statResults (w : List WorkUnit) : SummaryStats :=
  let ws := sortByLatency w
  let count := w.length
  { sample_count := count
    mean := (ws.foldl (fun s c => s + c.duration_us) 0) / (count : ℚ)
    min? := rankValue ws 0
    p90? := rankValue ws (rankOf count (9/10))
    p99? := rankValue ws (rankOf count (99/100))
    p999? := rankValue ws (rankOf count (999/1000))
    p9999? := rankValue ws (rankOf count (9999/10000))
    max? := rankValue ws (count - 1) }

/-! ### Experiment coordinator (`RunExperiment`, lines 111-159)

The per-stream sample sets returned by the worker threads are embedded as a
list of lists, and the wall-clock elapsed duration between the recorded
start and finish instants as a `ℚ` parameter.  The two out-parameters
`reqs_per_sec` and `cpu_usage` are embedded as a record threaded through
the call. -/

/-- The two `double *` out-parameters of `RunExperiment`. -/
structure OutParams where
  reqs_per_sec : ℚ
  cpu_usage : ℚ
deriving DecidableEq, Repr

/-- Lines 143-147: concatenate the per-stream sample sets in thread order
(`w.insert(w.end(), v.begin(), v.end())` per stream). -/
def aggregateSamples (samples : List (List WorkUnit)) : List WorkUnit :=
  samples.foldl (fun w v => w ++ v) []

/-- Lines 150-152: `w.erase(std::remove_if(..., duration_us == 0), w.end())`
removes the requests that did not complete. -/
def removeIncomplete (w : List WorkUnit) : List WorkUnit :=
  w.filter (fun s => !decide (s.duration_us = 0))

/-- `RunExperiment` after the joins (lines 142-158): aggregate, filter, and
write the achieved rate `w.size() / elapsed * 1000000` through the
`reqs_per_sec` pointer (the caller always passes a non-null one); the
`cpu_usage` pointer is never written.  Returns the filtered sample set and
the out-parameter state. -/
def RunExperiment (samples : List (List WorkUnit)) (elapsed : ℚ)
    (outs : OutParams) : List WorkUnit × OutParams :=
  let w := removeIncomplete (aggregateSamples samples)
  (w, { outs with reqs_per_sec := (w.length : ℚ) / elapsed * 1000000 })

section StatHelpers

/-- The sorted sample sequence is ordered by non-decreasing latency. -/
theorem sortByLatency_pairwise (w : List WorkUnit) :
    List.Pairwise (fun u v : WorkUnit => u.duration_us ≤ v.duration_us)
      (sortByLatency w) := by
  have htrans : ∀ a b c : WorkUnit, durLe a b → durLe b c → durLe a c := by
    intro a b c hab hbc
    simp only [durLe, decide_eq_true_eq] at hab hbc ⊢
    exact le_trans hab hbc
  have htotal : ∀ a b : WorkUnit, durLe a b || durLe b a := by
    intro a b
    simp only [durLe, Bool.or_eq_true, decide_eq_true_eq]
    exact le_total _ _
  exact (List.sorted_mergeSort htrans htotal w).imp
    (by intro a b hab; simpa [durLe] using hab)

/-- The sorted sample sequence is a permutation of the input. -/
theorem sortByLatency_perm (w : List WorkUnit) :
    List.Perm (sortByLatency w) w :=
  List.mergeSort_perm w durLe

/-- `std::accumulate` with `+ duration_us`, as a fold, sums the latencies. -/
theorem foldl_add_duration (l : List WorkUnit) :
    ∀ acc : ℚ, l.foldl (fun s c => s + c.duration_us) acc =
      acc + (l.map WorkUnit.duration_us).sum := by
  induction l with
  | nil => intro acc; simp
  | cons u rest ih => intro acc; simp [ih, add_assoc]

end StatHelpers

/-- C1 is false of the code: `PrintStatResults` has no guard for an empty
sample set.  On zero samples it still performs every rank read — all of them
out of range on the empty sorted sequence (`none` here, undefined behavior
in C++) — and divides the zero sum by the zero count (NaN in C++). -/
theorem statResults_empty_unguarded :
    (statResults []).sample_count = 0 ∧
      (statResults []).mean = 0 / 0 ∧
      (statResults []).min? = none ∧
      (statResults []).p90? = none ∧
      (statResults []).p99? = none ∧
      (statResults []).p999? = none ∧
      (statResults []).p9999? = none ∧
      (statResults []).max? = none := by
  refine ⟨rfl, ?_, ?_, ?_, ?_, ?_, ?_, ?_⟩ <;>
    simp [statResults, sortByLatency, rankValue]

/-- The six-sample scenario: three streams of two completed requests each,
with latencies {30, 10, 60, 20, 50, 40} μs in aggregation order. -/
def scenario6 : List WorkUnit :=
  [WorkUnit.mk 1 0 false 30, WorkUnit.mk 2 0 false 10,
   WorkUnit.mk 3 0 false 60, WorkUnit.mk 4 8 true 20,
   WorkUnit.mk 5 0 false 50, WorkUnit.mk 6 8 true 40]

unseal List.merge List.mergeSort in
/-- The six-sample scenario sorts by ascending latency. -/
theorem sortByLatency_scenario6 :
    sortByLatency scenario6 =
      [WorkUnit.mk 2 0 false 10, WorkUnit.mk 4 8 true 20,
       WorkUnit.mk 1 0 false 30, WorkUnit.mk 6 8 true 40,
       WorkUnit.mk 5 0 false 50, WorkUnit.mk 3 0 false 60] := rfl

/-- C4: on a non-empty sample set the reducer's `min?` is the smallest
latency of the set and `max?` the largest (ranks 0 and `count - 1` of the
latency-sorted sequence), the mean is the latency sum divided by the count,
and the count is the set's size; the percentile rank for fraction `p` is
`⌊count * p⌋`, so `⌊6 * 0.9⌋ = 5`, and on the six completed latencies
{10, 20, 30, 40, 50, 60} μs the reducer reports min = 10, max = 60,
mean = 35 and p90 = 60. -/
theorem statResults_order_stats (w : List WorkUnit) (hw : w ≠ []) :
    (∃ m, (statResults w).min? = some m ∧ m ∈ w.map WorkUnit.duration_us ∧
        ∀ x ∈ w.map WorkUnit.duration_us, m ≤ x) ∧
      (∃ M, (statResults w).max? = some M ∧ M ∈ w.map WorkUnit.duration_us ∧
        ∀ x ∈ w.map WorkUnit.duration_us, x ≤ M) ∧
      (statResults w).mean = (w.map WorkUnit.duration_us).sum / (w.length : ℚ) ∧
      (statResults w).sample_count = w.length ∧
      rankOf 6 (9/10) = 5 ∧
      statResults scenario6 =
        { sample_count := 6, mean := 35, min? := some 10, p90? := some 60,
          p99? := some 60, p999? := some 60, p9999? := some 60,
          max? := some 60 } := by
  have hperm : List.Perm (sortByLatency w) w := sortByLatency_perm w
  have hpw := sortByLatency_pairwise w
  have hlen : (sortByLatency w).length = w.length := hperm.length_eq
  have hpos : 0 < w.length := List.length_pos.mpr hw
  have hgetE := List.pairwise_iff_getElem.mp hpw
  refine ⟨?_, ?_, ?_, rfl, ?_, ?_⟩
  · -- min at rank 0
    have h0 : 0 < (sortByLatency w).length := by omega
    refine ⟨(sortByLatency w)[0].duration_us, ?_, ?_, ?_⟩
    · show rankValue (sortByLatency w) 0 = _
      rw [rankValue, List.get?_eq_getElem?, List.getElem?_eq_getElem h0]
      rfl
    · exact List.mem_map_of_mem WorkUnit.duration_us
        (hperm.subset (List.getElem_mem h0))
    · intro x hx
      obtain ⟨u, hu, rfl⟩ := List.mem_map.mp hx
      obtain ⟨j, hj, rfl⟩ := List.mem_iff_getElem.mp (hperm.mem_iff.mpr hu)
      rcases Nat.eq_zero_or_pos j with rfl | hjpos
      · exact le_refl _
      · exact hgetE 0 j h0 hj hjpos
  · -- max at rank count - 1
    have hlast : w.length - 1 < (sortByLatency w).length := by omega
    refine ⟨(sortByLatency w)[w.length - 1].duration_us, ?_, ?_, ?_⟩
    · show rankValue (sortByLatency w) (w.length - 1) = _
      rw [rankValue, List.get?_eq_getElem?, List.getElem?_eq_getElem hlast]
      rfl
    · exact List.mem_map_of_mem WorkUnit.duration_us
        (hperm.subset (List.getElem_mem hlast))
    · intro x hx
      obtain ⟨u, hu, rfl⟩ := List.mem_map.mp hx
      obtain ⟨j, hj, rfl⟩ := List.mem_iff_getElem.mp (hperm.mem_iff.mpr hu)
      rcases Nat.lt_or_ge j (w.length - 1) with hjlt | hjge
      · exact hgetE j (w.length - 1) hj hlast hjlt
      · have : j = w.length - 1 := by omega
        subst this
        exact le_refl _
  · -- mean is the latency sum over the count
    show (sortByLatency w).foldl (fun s c => s + c.duration_us) 0 /
        ((w.length : ℕ) : ℚ) = _
    rw [foldl_add_duration, zero_add, (hperm.map WorkUnit.duration_us).sum_eq]
  · -- the p90 rank on six samples
    rw [rankOf]
    norm_num
    rfl
  · -- the concrete six-sample scenario
    simp only [statResults]
    rw [sortByLatency_scenario6]
    norm_num [scenario6, rankOf, rankValue, SummaryStats.mk.injEq]
    rfl

/-- C4 witness: the order statistics evaluated on the concrete six-sample
scenario. -/
theorem statResults_order_stats_witness :
    (∃ m, (statResults scenario6).min? = some m ∧
        m ∈ scenario6.map WorkUnit.duration_us ∧
        ∀ x ∈ scenario6.map WorkUnit.duration_us, m ≤ x) ∧
      (∃ M, (statResults scenario6).max? = some M ∧
        M ∈ scenario6.map WorkUnit.duration_us ∧
        ∀ x ∈ scenario6.map WorkUnit.duration_us, x ≤ M) ∧
      (statResults scenario6).mean =
        (scenario6.map WorkUnit.duration_us).sum / (scenario6.length : ℚ) ∧
      (statResults scenario6).sample_count = scenario6.length ∧
      rankOf 6 (9/10) = 5 ∧
      statResults scenario6 =
        { sample_count := 6, mean := 35, min? := some 10, p90? := some 60,
          p99? := some 60, p999? := some 60, p9999? := some 60,
          max? := some 60 } :=
  statResults_order_stats scenario6 (by simp [scenario6])

/-- C8: percentile monotonicity.  On any sample sequence sorted by
non-decreasing latency, for rank fractions `p1 < p2` with `p2`'s rank in
range, the reducer's rank read at `p1` is defined and at most the rank read
at `p2`. -/
theorem percentile_rank_monotone (ws : List WorkUnit)
    (hs : List.Pairwise (fun u v : WorkUnit => u.duration_us ≤ v.duration_us)
      ws) (p1 p2 : ℚ) (h12 : p1 < p2)
    (hv : rankOf ws.length p2 < ws.length) :
    ∃ v1 v2,
      rankValue ws (rankOf ws.length p1) = some v1 ∧
        rankValue ws (rankOf ws.length p2) = some v2 ∧ v1 ≤ v2 := by
  have hr : rankOf ws.length p1 ≤ rankOf ws.length p2 := by
    apply Int.toNat_le_toNat
    apply Int.floor_mono
    exact mul_le_mul_of_nonneg_left h12.le (Nat.cast_nonneg _)
  have h1 : rankOf ws.length p1 < ws.length := lt_of_le_of_lt hr hv
  refine ⟨ws[rankOf ws.length p1].duration_us,
    ws[rankOf ws.length p2].duration_us, ?_, ?_, ?_⟩
  · rw [rankValue, List.get?_eq_getElem?, List.getElem?_eq_getElem h1]; rfl
  · rw [rankValue, List.get?_eq_getElem?, List.getElem?_eq_getElem hv]; rfl
  · rcases Nat.lt_or_ge (rankOf ws.length p1) (rankOf ws.length p2) with
      hlt | hge
    · exact List.pairwise_iff_getElem.mp hs _ _ h1 hv hlt
    · have heq : rankOf ws.length p1 = rankOf ws.length p2 :=
        le_antisymm hr hge
      simp only [heq]
      exact le_rfl

/-- A sorted two-sample sequence with latencies 10 and 20 μs. -/
def sortedPair : List WorkUnit :=
  [WorkUnit.mk 0 0 false 10, WorkUnit.mk 0 0 false 20]

/-- C8 witness: on the sorted pair, the median rank read (p = 1/2) is below
the p = 3/4 rank read. -/
theorem percentile_rank_monotone_witness :
    ∃ v1 v2,
      rankValue sortedPair (rankOf sortedPair.length (1/2)) = some v1 ∧
        rankValue sortedPair (rankOf sortedPair.length (3/4)) = some v2 ∧
        v1 ≤ v2 :=
  percentile_rank_monotone sortedPair
    (by norm_num [sortedPair, List.pairwise_cons]) (1/2) (3/4)
    (by norm_num) (by rw [rankOf]; norm_num [sortedPair])

/-! ### C5 and C10: experiment aggregation and the out-parameter frame -/

/-- The thread-order concatenation is the flattening of the per-stream
sample sets. -/
theorem aggregateSamples_eq_flatten (samples : List (List WorkUnit)) :
    aggregateSamples samples = samples.flatten := by
  suffices h : ∀ acc : List WorkUnit,
      samples.foldl (fun w v => w ++ v) acc = acc ++ samples.flatten by
    simpa [aggregateSamples] using h []
  induction samples with
  | nil => intro acc; simp
  | cons s rest ih => intro acc; simp [ih]

/-- The incomplete-sample filter removes exactly the zero-latency items:
the multiplicity of a zero-latency item drops to 0 and every other
multiplicity is preserved. -/
theorem removeIncomplete_count (w : List WorkUnit) (u : WorkUnit) :
    (removeIncomplete w).count u =
      if u.duration_us = 0 then 0 else w.count u := by
  by_cases h : u.duration_us = 0
  · rw [if_pos h]
    refine List.count_eq_zero.mpr ?_
    intro hmem
    have := (List.mem_filter.mp hmem).2
    simp [h] at this
  · rw [if_neg h]
    exact List.count_filter (by simpa using h)

/-- C5: the coordinator's aggregation concatenates all streams' sample sets,
removes exactly the items with `duration_us = 0` (no zero-latency item
survives into the reducer's input — sorted or not — nor into its sample
count), and reports the achieved rate as the completed-sample count divided
by the wall-clock elapsed duration (in μs, scaled to seconds). -/
theorem RunExperiment_aggregation (samples : List (List WorkUnit))
    (elapsed : ℚ) (outs : OutParams) :
    (∀ u ∈ (RunExperiment samples elapsed outs).1, u.duration_us ≠ 0) ∧
      (∀ u : WorkUnit, ((RunExperiment samples elapsed outs).1).count u =
        if u.duration_us = 0 then 0 else samples.flatten.count u) ∧
      ((RunExperiment samples elapsed outs).2).reqs_per_sec =
        (((RunExperiment samples elapsed outs).1).length : ℚ) / elapsed *
          1000000 ∧
      (statResults ((RunExperiment samples elapsed outs).1)).sample_count =
        ((RunExperiment samples elapsed outs).1).length ∧
      (∀ u ∈ sortByLatency ((RunExperiment samples elapsed outs).1),
        u.duration_us ≠ 0) := by
  refine ⟨?_, ?_, rfl, rfl, ?_⟩
  · intro u hu
    have := (List.mem_filter.mp hu).2
    simpa using this
  · intro u
    show (removeIncomplete (aggregateSamples samples)).count u = _
    rw [removeIncomplete_count, aggregateSamples_eq_flatten]
  · intro u hu
    have hmem := (sortByLatency_perm _).subset hu
    have := (List.mem_filter.mp hmem).2
    simpa using this

/-- A concrete two-stream sample set: latencies {7, 0} and {4}. -/
def samplesPair : List (List WorkUnit) :=
  [[WorkUnit.mk 1 0 false 7, WorkUnit.mk 2 0 false 0],
   [WorkUnit.mk 3 0 false 4]]

/-- C5 witness: the aggregation facts evaluated on the concrete two-stream
sample set with elapsed time 2 μs. -/
theorem RunExperiment_aggregation_witness :
    (∀ u ∈ (RunExperiment samplesPair 2 (OutParams.mk 0 99)).1,
        u.duration_us ≠ 0) ∧
      (∀ u : WorkUnit,
        ((RunExperiment samplesPair 2 (OutParams.mk 0 99)).1).count u =
          if u.duration_us = 0 then 0 else samplesPair.flatten.count u) ∧
      ((RunExperiment samplesPair 2 (OutParams.mk 0 99)).2).reqs_per_sec =
        (((RunExperiment samplesPair 2 (OutParams.mk 0 99)).1).length : ℚ) /
          2 * 1000000 ∧
      (statResults
          ((RunExperiment samplesPair 2 (OutParams.mk 0 99)).1)).sample_count =
        ((RunExperiment samplesPair 2 (OutParams.mk 0 99)).1).length ∧
      (∀ u ∈ sortByLatency ((RunExperiment samplesPair 2 (OutParams.mk 0 99)).1),
        u.duration_us ≠ 0) :=
  RunExperiment_aggregation samplesPair 2 (OutParams.mk 0 99)

/-- C10: `RunExperiment` writes only the `reqs_per_sec` out-parameter; the
value behind the `cpu_usage` pointer is returned unchanged, so the
`cpu_usage` column of the printed record is whatever the caller's variable
held. -/
theorem RunExperiment_cpu_usage_unchanged (samples : List (List WorkUnit))
    (elapsed : ℚ) (outs : OutParams) :
    ((RunExperiment samples elapsed outs).2).cpu_usage = outs.cpu_usage ∧
      ((RunExperiment samples elapsed outs).2).reqs_per_sec =
        ((removeIncomplete (aggregateSamples samples)).length : ℚ) /
          elapsed * 1000000 :=
  ⟨rfl, rfl⟩

end StorageBench
